import Mathlib

/-!
Verification of the lumberjill logging-filter library (`lumberjill/filters.py`).

The four filter classes (`AndFilter`, `FrequencyFilter`, `ProcessTimeFilter`,
`_TimeWindow`) are shallowly embedded as Lean functions.  Python's implicit
mutable state becomes explicit state passing: every `filter`/`add` method is a
function from the old filter state (and the record / timestamp) to the result
together with the new state.  Numeric clock values (`record.created`, window
`period`) are modelled as integers (`Int`): the library treats them purely
through subtraction and order comparison, which the integers model exactly on
every scenario considered here.  An operation that would raise in Python
(indexing an empty deque) returns `none`.
-/

namespace Lumberjill

/-- Embedding of `_TimeWindow` (`filters.py`): `period`, `limit` and the
`window` deque of timestamps, oldest first. -/
structure TimeWindow where
  period : Int
  limit : Nat
  window : List Int
deriving Repr, DecidableEq

/-- `_TimeWindow.__init__`: fixed `period` and `limit`, empty deque. -/
def TimeWindow.init (period : Int) (limit : Nat) : TimeWindow :=
  ⟨period, limit, []⟩

/-- `_TimeWindow.add(time)`.  If fewer than `limit` timestamps are held, append
and admit.  Otherwise compare against the oldest held timestamp `window[0]`:
admit (popping the oldest) exactly when `time - window[0] > period`.  Python
would raise `IndexError` on `window[0]` if the deque were empty (only possible
when `limit = 0`); that is modelled by `none`. -/
def TimeWindow.add (tw : TimeWindow) (time : Int) : Option (Bool × TimeWindow) :=
  if tw.window.length < tw.limit then
    some (true, { tw with window := tw.window ++ [time] })
  else
    match tw.window with
    | [] => none
    | t0 :: rest =>
      if time - t0 > tw.period then
        some (true, { tw with window := rest ++ [time] })
      else
        some (false, tw)

/-- Feed a list of timestamps through `add` one at a time, collecting the
returned booleans and the final window state. -/
def TimeWindow.run (tw : TimeWindow) : List Int → Option (List Bool × TimeWindow)
  | [] => some ([], tw)
  | t :: ts =>
    match tw.add t with
    | none => none
    | some (b, tw1) =>
      match tw1.run ts with
      | none => none
      | some (bs, tw2) => some (b :: bs, tw2)

/-- The boolean outcome sequence the spec predicts for `period=10, limit=2`
on inputs `0,1,...,19`: admit at 0, 1, 11 and 12, reject everywhere else. -/
def scenarioC1 : List Bool :=
  (List.range 20).map (fun n => n = 0 || n = 1 || n = 11 || n = 12)

/-- Invariant carried through a run of `add` calls: the window is sorted, its
length is within `limit`, and every held timestamp is bounded by every
timestamp still to be fed in. -/
def TimeWindow.Inv (tw : TimeWindow) (ts : List Int) : Prop :=
  List.Sorted (· ≤ ·) tw.window ∧ tw.window.length ≤ tw.limit ∧
    ∀ x ∈ tw.window, ∀ t ∈ ts, x ≤ t

/-- Abstract interface to the Python runtime facts `FrequencyFilter` consults
about exception classes: `issub t c` models `issubclass(t, c)` and `name c`
models `c.__name__`.  `α` is the type of exception class objects. -/
structure ExcModel (α : Type) where
  issub : α → α → Bool
  name : α → String

/-- The slice of `logging.LogRecord` the filters read: `levelname`,
`pathname`, `lineno`, `created`, `process` and `exc_info`.  Of the
`exc_info` triple only the exception class `exc_info[0]` is consulted, so the
field keeps just that class; `none` models a falsy `exc_info` (no associated
error). -/
structure Record (α : Type) where
  levelname : String
  pathname : String
  lineno : Nat
  created : Int
  process : String
  exc_info : Option α
deriving Repr, DecidableEq

/-- Stand-in for `hashlib.md5(s).hexdigest()`.  The spec requires only a
stable content digest used to group records (collision resistance is
explicitly not required), so the digest is modelled as the identity on the
digested text, which is stable and injective. -/
def md5hex (s : String) : String := s

/-- `collections.Counter` lookup (`self.counter[key]`): 0 when the key is
absent.  The counter is modelled as an association list. -/
def counterGet (c : List (String × Nat)) (k : String) : Nat :=
  match c.find? (fun p => p.1 == k) with
  | some p => p.2
  | none => 0

/-- `collections.Counter` increment (`self.counter[key] += 1`). -/
def counterInc (c : List (String × Nat)) (k : String) : List (String × Nat) :=
  match c with
  | [] => [(k, 1)]
  | p :: rest => if p.1 == k then (p.1, p.2 + 1) :: rest else p :: counterInc rest k

/-- Embedding of `FrequencyFilter`: the occurrence counter, the last-cleared
UTC date string (`%Y-%m-%d`), the configured exception types and the
exception sampling frequency. -/
structure FrequencyFilter (α : Type) where
  counter : List (String × Nat)
  last_cleared_date : String
  exception_types : List α
  exception_frequency : Nat
deriving Repr, DecidableEq

/-- `FrequencyFilter.__init__` run at UTC date `date`: empty counter,
`last_cleared_date` set to the construction date. -/
def FrequencyFilter.init (exception_types : List α) (exception_frequency : Nat)
    (date : String) : FrequencyFilter α :=
  ⟨[], date, exception_types, exception_frequency⟩

/-- `FrequencyFilter._should_log(count, cls)`.  Classified records
(`cls` present) are admitted iff `count % exception_frequency == 0`
(Python's `not count % self.exception_frequency`); unclassified records iff
the count is 1, 10, 100 or a multiple of 1000.  (Python would raise
`ZeroDivisionError` were `exception_frequency` zero; the claims considered
here all take it positive.) -/
def FrequencyFilter.should_log (f : FrequencyFilter α) (count : Nat)
    (cls : Option α) : Bool :=
  match cls with
  | some _ => count % f.exception_frequency == 0
  | none => count == 1 || count == 10 || count == 100 || count % 1000 == 0

/-- `FrequencyFilter._get_key(record, cls)`: for a classified record,
`"<cls.__name__>.<md5(pathname + "." + lineno)>"`; otherwise
`md5(levelname + "." + pathname + "." + lineno)`. -/
def FrequencyFilter.get_key (em : ExcModel α) (r : Record α) (cls : Option α) :
    String :=
  match cls with
  | some c => em.name c ++ "." ++ md5hex (r.pathname ++ "." ++ toString r.lineno)
  | none => md5hex (r.levelname ++ "." ++ r.pathname ++ "." ++ toString r.lineno)

/-- `FrequencyFilter._get_exception_match(record)`: when the record carries an
exception class, the first configured type it is a subclass of, else `None`. -/
def FrequencyFilter.get_exception_match (em : ExcModel α) (f : FrequencyFilter α)
    (r : Record α) : Option α :=
  match r.exc_info with
  | some exc_type => f.exception_types.find? (fun cls => em.issub exc_type cls)
  | none => none

/-- `FrequencyFilter._should_clear()` with the current UTC date injected as
`today`. -/
def FrequencyFilter.should_clear (f : FrequencyFilter α) (today : String) : Bool :=
  today != f.last_cleared_date

/-- `FrequencyFilter._clear()` with the current UTC date injected as `today`. -/
def FrequencyFilter.clear (f : FrequencyFilter α) (today : String) :
    FrequencyFilter α :=
  { f with counter := [], last_cleared_date := today }

/-- `FrequencyFilter.filter(record)` with the current UTC date injected as
`today`.  Returns the admission decision together with the metadata the
Python code writes onto the record (`record.key`, `record.count`) and the new
filter state. -/
def FrequencyFilter.filter (em : ExcModel α) (f : FrequencyFilter α)
    (today : String) (r : Record α) :
    (Bool × String × Nat) × FrequencyFilter α :=
  let f1 := if f.should_clear today then f.clear today else f
  let cls := f1.get_exception_match em r
  let key := FrequencyFilter.get_key em r cls
  let counter := counterInc f1.counter key
  let count := counterGet counter key
  ((f1.should_log count cls, key, count), { f1 with counter := counter })

/-- Feed a list of records through `FrequencyFilter.filter`, all on the same
UTC date `today`, collecting the per-record outputs and the final state. -/
def FrequencyFilter.runDay (em : ExcModel α) (f : FrequencyFilter α)
    (today : String) : List (Record α) → List (Bool × String × Nat) × FrequencyFilter α
  | [] => ([], f)
  | r :: rest =>
    let (out, f1) := FrequencyFilter.filter em f today r
    let (outs, f2) := FrequencyFilter.runDay em f1 today rest
    (out :: outs, f2)

/-- A concrete exception-class model used by the scenarios: classes are
numbered, the subclass relation is equality, class 0 is
`ZeroDivisionError`. -/
def natExcModel : ExcModel Nat :=
  ⟨fun a b => a == b, fun n => if n == 0 then "ZeroDivisionError" else "E" ++ toString n⟩

/-- A plain warning record with no associated error, as produced by the
repository's `StubRecord()` default arguments. -/
def recC2 : Record Nat :=
  ⟨"W", "p", 42, 0, "1", none⟩

/-- The sampling key `recC2` is grouped under (level "." path "." line). -/
def kC2 : String := "W.p.42"

/-- The sampler state after `m` sightings of `recC2` on date "d" with no
configured exception types and `exception_frequency = 10`. -/
def fStateC2 (m : Nat) : FrequencyFilter Nat :=
  ⟨[(kC2, m)], "d", [], 10⟩

/-- The default (unclassified) admission policy as a predicate on the
occurrence count. -/
def defaultPolicy (c : Nat) : Bool :=
  c == 1 || c == 10 || c == 100 || c % 1000 == 0

/-- The sampling key the filter derives for a record: the result of
`_get_key(record, _get_exception_match(record))`. -/
def FrequencyFilter.derivedKey (em : ExcModel α) (f : FrequencyFilter α)
    (r : Record α) : String :=
  FrequencyFilter.get_key em r (FrequencyFilter.get_exception_match em f r)

/-- The `t`-th record of the C3 scenario (the repository's
`test_frequency_filter` second batch): records alternate between source
lines 0 and 1 and all carry exception class 0 (`ZeroDivisionError`). -/
def recC3 (t : Nat) : Record Nat :=
  ⟨"W", "p", t % 2, Int.ofNat (t / 2), "1", some 0⟩

/-- The 100 records of the C3 scenario. -/
def recsC3 : List (Record Nat) :=
  (List.range 100).map recC3

/-- The C3-scenario filter: one configured exception type,
`exception_frequency = 10`. -/
def fC3 : FrequencyFilter Nat :=
  FrequencyFilter.init [0] 10 "d"

/-- The sampling key of the C3 records at source line 0. -/
def kC3zero : String := "ZeroDivisionError.p.0"

/-- The sampling key of the C3 records at source line 1. -/
def kC3one : String := "ZeroDivisionError.p.1"

/-- An exception-class model in which every class is a subclass of every
other (used to exhibit a record matching more than one configured type). -/
def emC7 : ExcModel Nat :=
  ⟨fun _ _ => true, fun n => "E" ++ toString n⟩

/-- A filter configured with two exception types, 5 and 7. -/
def fC7 : FrequencyFilter Nat :=
  FrequencyFilter.init [5, 7] 10 "d"

/-- A record carrying exception class 3, which under `emC7` is a subclass of
both configured types of `fC7`. -/
def recC7 : Record Nat :=
  ⟨"W", "p", 1, 0, "1", some 3⟩

/-- Embedding of `ProcessTimeFilter`: fixed `period` and `limit` and the
process-id → `_TimeWindow` dictionary. -/
structure ProcessTimeFilter where
  period : Int
  limit : Nat
  processes : List (String × TimeWindow)
deriving Repr, DecidableEq

/-- `ProcessTimeFilter.__init__(period, limit)`: empty process map. -/
def ProcessTimeFilter.init (period : Int) (limit : Nat) : ProcessTimeFilter :=
  ⟨period, limit, []⟩

/-- Dictionary lookup `self.processes[record.process]` (with the
`record.process not in self.processes` test). -/
def procLookup (ps : List (String × TimeWindow)) (k : String) : Option TimeWindow :=
  match ps.find? (fun p => p.1 == k) with
  | some p => some p.2
  | none => none

/-- Dictionary write `self.processes[k] = tw`: replaces the entry in place,
or appends it when absent (Python dicts preserve insertion order). -/
def procUpdate (ps : List (String × TimeWindow)) (k : String) (tw : TimeWindow) :
    List (String × TimeWindow) :=
  match ps with
  | [] => [(k, tw)]
  | p :: rest => if p.1 == k then (k, tw) :: rest else p :: procUpdate rest k tw

/-- `ProcessTimeFilter.filter(record)`: create this process's window on first
sighting, then delegate to its `add(record.created)`.  (`none` only if `add`
itself would raise, i.e. when `limit = 0`.) -/
def ProcessTimeFilter.filter (f : ProcessTimeFilter) (r : Record α) :
    Option (Bool × ProcessTimeFilter) :=
  let tw :=
    match procLookup f.processes r.process with
    | some tw => tw
    | none => TimeWindow.init f.period f.limit
  match tw.add r.created with
  | none => none
  | some (b, tw') =>
    some (b, { f with processes := procUpdate f.processes r.process tw' })

/-- Feed a list of records through `ProcessTimeFilter.filter`, collecting
the decisions and the final state. -/
def ProcessTimeFilter.run (f : ProcessTimeFilter) :
    List (Record α) → Option (List Bool × ProcessTimeFilter)
  | [] => some ([], f)
  | r :: rest =>
    match ProcessTimeFilter.filter f r with
    | none => none
    | some (b, f1) =>
      match ProcessTimeFilter.run f1 rest with
      | none => none
      | some (bs, f2) => some (b :: bs, f2)

/-- The `t`-th record of the C5 scenario (the repository's
`test_process_time_filter`): timestamps `t / 2` (integer division),
alternating process identifiers `str(t % 2)`. -/
def recC5 (t : Nat) : Record Nat :=
  ⟨"W", "p", 42, Int.ofNat (t / 2), if t % 2 == 0 then "0" else "1", none⟩

/-- The 100 records of the C5 scenario. -/
def recsC5 : List (Record Nat) :=
  (List.range 100).map recC5

/-- One child of an `AndFilter`: its private mutable state and its `filter`
method as a function of that state and the record. -/
structure ChildFilter (ρ σ : Type) where
  state : σ
  filterFn : σ → ρ → Bool × σ

/-- Embedding of `AndFilter`: the ordered list `self.filters`. -/
structure AndFilter (ρ σ : Type) where
  filters : List (ChildFilter ρ σ)

/-- `AndFilter.__init__(**kwargs)`: the keyword names are sorted ascending
and the child filters are kept in that order (`keys.sort()` in the
Python 2 source). -/
def AndFilter.init (kwargs : List (String × ChildFilter ρ σ)) : AndFilter ρ σ :=
  ⟨(@List.insertionSort (String × ChildFilter ρ σ) (fun a b => a.1 ≤ b.1)
      (fun a b => inferInstanceAs (Decidable (a.1 ≤ b.1))) kwargs).map
    (fun p => p.2)⟩

/-- The loop body of `AndFilter.filter(record)`: call each child's `filter`
in order, stopping at the first `False`; children after the stopping point
are not invoked, so their state is returned unchanged. -/
def AndFilter.filterList : List (ChildFilter ρ σ) → ρ → Bool × List (ChildFilter ρ σ)
  | [], _ => (true, [])
  | c :: cs, r =>
    let b := (c.filterFn c.state r).1
    let c1 : ChildFilter ρ σ := { c with state := (c.filterFn c.state r).2 }
    if b then
      ((AndFilter.filterList cs r).1, c1 :: (AndFilter.filterList cs r).2)
    else
      (false, c1 :: cs)

/-- `AndFilter.filter(record)`. -/
def AndFilter.filter (f : AndFilter ρ σ) (r : ρ) : Bool × AndFilter ρ σ :=
  ((AndFilter.filterList f.filters r).1, ⟨(AndFilter.filterList f.filters r).2⟩)

/-- The decision each child would make on `r` from its current state. -/
def childResults (cs : List (ChildFilter ρ σ)) (r : ρ) : List Bool :=
  cs.map (fun c => (c.filterFn c.state r).1)

/-- A child filter that always admits, counting its invocations in its
state (the tests' `StubFilter(on=True)`). -/
def cA : ChildFilter Nat Nat := ⟨0, fun s _ => (true, s + 1)⟩

/-- A child filter that always rejects, counting its invocations in its
state (the tests' `StubFilter(on=False)`). -/
def cB : ChildFilter Nat Nat := ⟨0, fun s _ => (false, s + 1)⟩

-- ==================== theorems ====================

/-- Claim C1.  Sliding-window `add` contract: with positive `period` and
`limit`, (1) if fewer than `limit` timestamps are held, the timestamp is
appended and `add` returns true; (2) otherwise, writing the window as
`t0 :: rest`, if `time - t0 > period` the oldest is discarded, the new
timestamp appended and `add` returns true, while if `time - t0 ≤ period`
(equality included) it returns false leaving the window unchanged; and
(3) with `period=10, limit=2`, the inputs `0,1,...,19` produce admissions
exactly at 0, 1, 11 and 12. -/
theorem timeWindow_add_contract (tw : TimeWindow) (time : Int)
    (hp : 0 < tw.period) (hl : 0 < tw.limit) :
    (tw.window.length < tw.limit →
      tw.add time = some (true, { tw with window := tw.window ++ [time] })) ∧
    (∀ t0 rest, tw.window = t0 :: rest → ¬ tw.window.length < tw.limit →
      (tw.period < time - t0 →
        tw.add time = some (true, { tw with window := rest ++ [time] })) ∧
      (time - t0 ≤ tw.period → tw.add time = some (false, tw))) ∧
    (TimeWindow.run (TimeWindow.init 10 2) ((List.range 20).map Int.ofNat) =
      some (scenarioC1, ⟨10, 2, [11, 12]⟩)) := by
  refine ⟨?_, ?_, by decide⟩
  · intro h
    simp [TimeWindow.add, h]
  · intro t0 rest hw hlen
    have hadd : tw.add time =
        if time - t0 > tw.period then
          some (true, { tw with window := rest ++ [time] })
        else some (false, tw) := by
      unfold TimeWindow.add
      rw [if_neg hlen, hw]
    constructor
    · intro hgt
      rw [hadd, if_pos hgt]
    · intro hle
      rw [hadd, if_neg (by omega)]

/-- Witness for C1: a full window `[0, 1]` with `period=10, limit=2` rejects
timestamp 10 (difference exactly equal to the period) and admits 11. -/
theorem timeWindow_add_contract_witness :
    (TimeWindow.mk 10 2 [0, 1]).add 10 = some (false, TimeWindow.mk 10 2 [0, 1]) ∧
    (TimeWindow.mk 10 2 [0, 1]).add 11 = some (true, TimeWindow.mk 10 2 [1, 11]) := by
  constructor
  · exact (((timeWindow_add_contract (TimeWindow.mk 10 2 [0, 1]) 10
      (by decide) (by decide)).2.1 0 [1] rfl (by decide)).2 (by decide))
  · exact (((timeWindow_add_contract (TimeWindow.mk 10 2 [0, 1]) 11
      (by decide) (by decide)).2.1 0 [1] rfl (by decide)).1 (by decide))

theorem timeWindow_run_inv (ts : List Int) (tw : TimeWindow)
    (hl : 0 < tw.limit) (hts : List.Sorted (· ≤ ·) ts) (hinv : tw.Inv ts) :
    ∃ bs tw', tw.run ts = some (bs, tw') ∧
      List.Sorted (· ≤ ·) tw'.window ∧ tw'.window.length ≤ tw.limit ∧
      tw'.limit = tw.limit := by
  induction ts generalizing tw with
  | nil => exact ⟨[], tw, rfl, hinv.1, hinv.2.1, rfl⟩
  | cons t ts ih =>
    obtain ⟨hsort, hlen, hub⟩ := hinv
    have hub_t : ∀ x ∈ tw.window, x ≤ t := fun x hx => hub x hx t (by simp)
    have hts' : List.Sorted (· ≤ ·) ts := hts.of_cons
    have ht_ts : ∀ u ∈ ts, t ≤ u := List.rel_of_sorted_cons hts
    -- one step of add, producing a state tw1 that re-establishes the invariant
    have step : ∃ b tw1, tw.add t = some (b, tw1) ∧ tw1.Inv ts ∧
        tw1.limit = tw.limit := by
      by_cases hfull : tw.window.length < tw.limit
      · refine ⟨true, { tw with window := tw.window ++ [t] }, by
          simp [TimeWindow.add, hfull], ⟨?_, ?_, ?_⟩, rfl⟩
        · refine (List.pairwise_append).2 ⟨hsort, by simp, ?_⟩
          intro x hx y hy
          simp only [List.mem_singleton] at hy
          subst hy
          exact hub_t x hx
        · simp only []
          simp
          omega
        · intro x hx u hu
          rcases List.mem_append.1 hx with hx | hx
          · exact le_trans (hub_t x hx) (ht_ts u hu)
          · simp only [List.mem_singleton] at hx; subst hx; exact ht_ts u hu
      · match hw : tw.window with
        | [] => rw [hw] at hfull; simp at hfull; omega
        | t0 :: rest =>
          have hadd : tw.add t =
              if t - t0 > tw.period then
                some (true, { tw with window := rest ++ [t] })
              else some (false, tw) := by
            unfold TimeWindow.add
            rw [if_neg hfull, hw]
          have hrest : List.Sorted (· ≤ ·) rest := by
            rw [hw] at hsort; exact hsort.of_cons
          by_cases hgt : t - t0 > tw.period
          · refine ⟨true, { tw with window := rest ++ [t] }, by
              rw [hadd, if_pos hgt], ⟨?_, ?_, ?_⟩, rfl⟩
            · refine (List.pairwise_append).2 ⟨hrest, by simp, ?_⟩
              intro x hx y hy
              simp only [List.mem_singleton] at hy
              subst hy
              exact hub_t x (by rw [hw]; exact List.mem_cons_of_mem t0 hx)
            · rw [hw] at hlen
              simp only []
              simp
              simp at hlen
              omega
            · intro x hx u hu
              rcases List.mem_append.1 hx with hx | hx
              · exact le_trans (hub_t x (by rw [hw]; exact List.mem_cons_of_mem t0 hx))
                  (ht_ts u hu)
              · simp only [List.mem_singleton] at hx; subst hx; exact ht_ts u hu
          · refine ⟨false, tw, by rw [hadd, if_neg hgt], ⟨hsort, hlen, ?_⟩, rfl⟩
            intro x hx u hu
            exact le_trans (hub_t x hx) (ht_ts u hu)
    obtain ⟨b, tw1, hadd, hinv1, hlim1⟩ := step
    obtain ⟨bs, tw', hrun, hs, hln, hlm⟩ := ih tw1 (hlim1 ▸ hl) hts' hinv1
    exact ⟨b :: bs, tw', by simp [TimeWindow.run, hadd, hrun], hs,
      hlim1 ▸ hln, hlim1 ▸ hlm⟩

/-- Claim C8.  State invariant of the sliding window: starting from a freshly
constructed window with positive `period` and `limit` and feeding any
non-decreasing sequence of timestamps, after each call (i.e. after every
initial segment of the input) the held sequence has at most `limit` entries
and is in non-decreasing order. -/
theorem timeWindow_state_invariant (period : Int) (limit : Nat)
    (hp : 0 < period) (hl : 0 < limit)
    (ts : List Int) (hts : List.Sorted (· ≤ ·) ts) (i : Nat) :
    ∃ bs tw', (TimeWindow.init period limit).run (ts.take i) = some (bs, tw') ∧
      tw'.window.length ≤ limit ∧ List.Sorted (· ≤ ·) tw'.window := by
  have htake : List.Sorted (· ≤ ·) (ts.take i) :=
    List.Pairwise.sublist (List.take_sublist i ts) hts
  have hinv : (TimeWindow.init period limit).Inv (ts.take i) := by
    refine ⟨List.sorted_nil, by simp [TimeWindow.init], by simp [TimeWindow.init]⟩
  obtain ⟨bs, tw', hrun, hs, hln, _⟩ :=
    timeWindow_run_inv (ts.take i) (TimeWindow.init period limit) hl htake hinv
  exact ⟨bs, tw', hrun, hln, hs⟩

/-- Witness for C8: the window `period=10, limit=2` after the first three of
the non-decreasing timestamps `0, 1, 5, 20` holds at most 2 sorted entries. -/
theorem timeWindow_state_invariant_witness :
    ∃ bs tw', (TimeWindow.init 10 2).run ([0, 1, 5, 20].take 3) = some (bs, tw') ∧
      tw'.window.length ≤ 2 ∧ List.Sorted (· ≤ ·) tw'.window :=
  timeWindow_state_invariant 10 2 (by decide) (by decide) [0, 1, 5, 20]
    (by simp [List.sorted_cons]) 3

theorem stepC2 (m : Nat) :
    FrequencyFilter.filter natExcModel (fStateC2 m) "d" recC2 =
      ((defaultPolicy (m + 1), kC2, m + 1), fStateC2 (m + 1)) := rfl

theorem runDayC2 (n m : Nat) :
    FrequencyFilter.runDay natExcModel (fStateC2 m) "d" (List.replicate n recC2) =
      ((List.range n).map (fun i => (defaultPolicy (m + 1 + i), kC2, m + 1 + i)),
        fStateC2 (m + n)) := by
  induction n generalizing m with
  | zero => simp [FrequencyFilter.runDay]
  | succ n ih =>
    rw [List.replicate_succ]
    simp only [FrequencyFilter.runDay, stepC2 m, ih (m + 1)]
    refine Prod.ext ?_ ?_
    · rw [List.range_succ_eq_map, List.map_cons, List.map_map]
      refine List.cons_eq_cons.2 ⟨by simp, ?_⟩
      apply List.map_congr_left
      intro i _
      have h1 : m + 1 + 1 + i = m + 1 + (i + 1) := by omega
      simp [Function.comp, h1]
    · exact congrArg fStateC2 (by omega)

theorem runDayC2_init (n : Nat) :
    FrequencyFilter.runDay natExcModel (FrequencyFilter.init [] 10 "d") "d"
      (List.replicate (n + 1) recC2) =
      ((List.range (n + 1)).map (fun i => (defaultPolicy (i + 1), kC2, i + 1)),
        fStateC2 (n + 1)) := by
  rw [List.replicate_succ]
  have h0 : FrequencyFilter.filter natExcModel (FrequencyFilter.init [] 10 "d") "d" recC2 =
      ((true, kC2, 1), fStateC2 1) := rfl
  simp only [FrequencyFilter.runDay, h0, runDayC2 n 1]
  refine Prod.ext ?_ ?_
  · rw [List.range_succ_eq_map, List.map_cons, List.map_map]
    refine List.cons_eq_cons.2 ⟨by simp [defaultPolicy, kC2], ?_⟩
    apply List.map_congr_left
    intro i _
    have h1 : 1 + 1 + i = i + 1 + 1 := by omega
    simp [Function.comp, h1]
  · exact congrArg fStateC2 (by omega)

theorem countP_or_disjoint (p q : Nat → Bool) (l : List Nat)
    (h : ∀ x ∈ l, p x = true → q x = false) :
    l.countP (fun x => p x || q x) = l.countP p + l.countP q := by
  induction l with
  | nil => simp
  | cons a l ih =>
    have ih' := ih (fun x hx => h x (List.mem_cons_of_mem a hx))
    cases hp : p a with
    | true =>
      have hq := h a (List.mem_cons_self a l) hp
      simp [List.countP_cons, hp, hq, ih']
      omega
    | false =>
      simp [List.countP_cons, hp, ih']
      omega

theorem countP_range_eqc (n c : Nat) :
    (List.range n).countP (fun i => i + 1 == c) = if 1 ≤ c ∧ c ≤ n then 1 else 0 := by
  induction n with
  | zero =>
    simp only [List.range_zero, List.countP_nil]
    split_ifs <;> omega
  | succ n ih =>
    rw [List.range_succ, List.countP_append, ih]
    by_cases h : n + 1 = c
    · have hb : (n + 1 == c) = true := by simp [h]
      simp [List.countP_cons, hb]
      split_ifs <;> omega
    · have hb : (n + 1 == c) = false := by simp [h]
      simp [List.countP_cons, hb]
      split_ifs <;> omega

theorem countP_range_mod1000 (n : Nat) :
    (List.range n).countP (fun i => (i + 1) % 1000 == 0) = n / 1000 := by
  induction n with
  | zero => simp
  | succ n ih =>
    rw [List.range_succ, List.countP_append, ih]
    by_cases h : (n + 1) % 1000 = 0
    · have hb : ((n + 1) % 1000 == 0) = true := by simp [h]
      simp [List.countP_cons, hb]
      omega
    · have hb : ((n + 1) % 1000 == 0) = false := by simp [h]
      simp [List.countP_cons, hb]
      omega

theorem countP_defaultPolicy_range (n : Nat) :
    (List.range n).countP (fun i => defaultPolicy (i + 1)) =
      (if 1 ≤ n then 1 else 0) + (if 10 ≤ n then 1 else 0) +
        (if 100 ≤ n then 1 else 0) + n / 1000 := by
  have e1 : (List.range n).countP (fun i => defaultPolicy (i + 1)) =
      (List.range n).countP
        (fun i => (((i + 1 == 1) || (i + 1 == 10)) || (i + 1 == 100)) ||
          ((i + 1) % 1000 == 0)) := rfl
  rw [e1]
  rw [countP_or_disjoint _ _ _ (by
    intro x _ hx
    simp only [Bool.or_eq_true, beq_iff_eq] at hx
    have : x + 1 = 1 ∨ x + 1 = 10 ∨ x + 1 = 100 := by tauto
    simp only [beq_eq_false_iff_ne, ne_eq]
    omega)]
  rw [countP_or_disjoint _ _ _ (by
    intro x _ hx
    simp only [Bool.or_eq_true, beq_iff_eq] at hx
    simp only [beq_eq_false_iff_ne, ne_eq]
    omega)]
  rw [countP_or_disjoint _ _ _ (by
    intro x _ hx
    simp only [beq_iff_eq] at hx
    simp only [beq_eq_false_iff_ne, ne_eq]
    omega)]
  rw [countP_range_eqc, countP_range_eqc, countP_range_eqc, countP_range_mod1000]
  have c1 : (if 1 ≤ 1 ∧ 1 ≤ n then 1 else 0) = (if 1 ≤ n then 1 else 0) := by
    split_ifs <;> omega
  have c10 : (if 1 ≤ 10 ∧ 10 ≤ n then 1 else 0) = (if 10 ≤ n then 1 else 0) := by
    split_ifs <;> omega
  have c100 : (if 1 ≤ 100 ∧ 100 ≤ n then 1 else 0) = (if 100 ≤ n then 1 else 0) := by
    split_ifs <;> omega
  rw [c1, c10, c100]

/-- Claim C2.  Frequency-sampler default (unclassified) policy: for every
`FrequencyFilter` and every unclassified record, `filter` admits the record
iff the occurrence count of its sampling key after incrementing is 1, 10 or
100 or a multiple of 1000; and feeding 5000 structurally identical
unclassified records on a single day admits exactly 8 of them, the admitted
ones being exactly those whose count is in
`[1, 10, 100, 1000, 2000, 3000, 4000, 5000]`. -/
theorem freqFilter_default_policy {α : Type} (em : ExcModel α)
    (f : FrequencyFilter α) (today : String) (r : Record α)
    (h : FrequencyFilter.get_exception_match em f r = none) :
    ((FrequencyFilter.filter em f today r).1.1 = true ↔
      ((FrequencyFilter.filter em f today r).1.2.2 = 1 ∨
       (FrequencyFilter.filter em f today r).1.2.2 = 10 ∨
       (FrequencyFilter.filter em f today r).1.2.2 = 100 ∨
       (FrequencyFilter.filter em f today r).1.2.2 % 1000 = 0)) ∧
    ((FrequencyFilter.runDay natExcModel (FrequencyFilter.init [] 10 "d") "d"
        (List.replicate 5000 recC2)).1.countP (fun o => o.1) = 8) ∧
    (∀ i < 5000, ∃ o,
      (FrequencyFilter.runDay natExcModel (FrequencyFilter.init [] 10 "d") "d"
        (List.replicate 5000 recC2)).1[i]? = some o ∧ o.2.2 = i + 1 ∧
      (o.1 = true ↔ (i + 1) ∈ ([1, 10, 100, 1000, 2000, 3000, 4000, 5000] : List Nat))) := by
  have h5000 : (5000 : Nat) = 4999 + 1 := by norm_num
  have hrun := runDayC2_init 4999
  rw [← h5000] at hrun
  refine ⟨?_, ?_, ?_⟩
  · have hcls : (if (f.should_clear today) = true then f.clear today else f).get_exception_match
        em r = none := by
      split <;> exact h
    show (FrequencyFilter.filter em f today r).1.1 = true ↔ _
    unfold FrequencyFilter.filter
    simp only [hcls]
    simp only [FrequencyFilter.should_log, Bool.or_eq_true, beq_iff_eq]
    omega
  · rw [hrun]
    rw [List.countP_map]
    have : ((fun (o : Bool × String × Nat) => o.1) ∘
        (fun i => (defaultPolicy (i + 1), kC2, i + 1))) =
        (fun i => defaultPolicy (i + 1)) := rfl
    rw [this, countP_defaultPolicy_range]
    norm_num
  · intro i hi
    rw [hrun]
    refine ⟨(defaultPolicy (i + 1), kC2, i + 1), ?_, rfl, ?_⟩
    · rw [List.getElem?_map, List.getElem?_range hi]
      rfl
    · simp only [defaultPolicy, Bool.or_eq_true, beq_iff_eq, List.mem_cons,
        List.mem_singleton, List.not_mem_nil, or_false]
      omega

/-- Witness for C2: `recC2` is unclassified, its first sighting has count 1
and is admitted. -/
theorem freqFilter_default_policy_witness :
    (FrequencyFilter.filter natExcModel (FrequencyFilter.init [] 10 "d") "d"
      recC2).1.1 = true :=
  (freqFilter_default_policy natExcModel (FrequencyFilter.init [] 10 "d") "d"
    recC2 rfl).1.mpr (Or.inl rfl)

set_option maxRecDepth 8000 in
/-- Counterexample to C3: running the exception-policy scenario
(`exception_frequency = 10`, 100 records alternating between two source
lines, all carrying the matched exception class) admits 5 records per
distinct sampling key and 10 in total — not 10 per key and 20 in total as
claimed.  Each key is sighted 50 times and is admitted at counts
10, 20, 30, 40, 50. -/
theorem freqFilter_exception_scenario_counterexample :
    ((FrequencyFilter.runDay natExcModel fC3 "d" recsC3).1.countP (fun o => o.1) = 10) ∧
    ¬ ((FrequencyFilter.runDay natExcModel fC3 "d" recsC3).1.countP (fun o => o.1) = 20) ∧
    (((FrequencyFilter.runDay natExcModel fC3 "d" recsC3).1.filter (fun o => o.1)).countP
      (fun o => o.2.1 == kC3zero) = 5) ∧
    ¬ (((FrequencyFilter.runDay natExcModel fC3 "d" recsC3).1.filter (fun o => o.1)).countP
      (fun o => o.2.1 == kC3zero) = 10) := by
  decide

set_option maxRecDepth 8000 in
/-- Claim C3, amended.  Frequency-sampler exception-policy scenario: with
`exception_frequency = 10`, feeding 100 records within a single day that
alternate between two distinct source lines and all carry the same matched
exception type yields 5 admissions per distinct sampling key (the key being
the exception type name joined with the location hash), for 10 total
admissions across the run. -/
theorem freqFilter_exception_scenario :
    ((FrequencyFilter.runDay natExcModel fC3 "d" recsC3).1.countP (fun o => o.1) = 10) ∧
    (((FrequencyFilter.runDay natExcModel fC3 "d" recsC3).1.filter (fun o => o.1)).countP
      (fun o => o.2.1 == kC3zero) = 5) ∧
    (((FrequencyFilter.runDay natExcModel fC3 "d" recsC3).1.filter (fun o => o.1)).countP
      (fun o => o.2.1 == kC3one) = 5) ∧
    (∀ o ∈ (FrequencyFilter.runDay natExcModel fC3 "d" recsC3).1,
      o.2.1 = kC3zero ∨ o.2.1 = kC3one) := by
  decide

theorem counterGet_counterInc (c : List (String × Nat)) (k0 k : String) :
    counterGet (counterInc c k0) k = counterGet c k + if k0 == k then 1 else 0 := by
  induction c with
  | nil =>
    by_cases h : (k0 == k) = true
    · simp [counterInc, counterGet, List.find?_cons, h]
    · simp only [Bool.not_eq_true] at h
      simp [counterInc, counterGet, List.find?_cons, h]
  | cons p rest ih =>
    by_cases hp : (p.1 == k0) = true
    · have hpk0 : p.1 = k0 := eq_of_beq hp
      by_cases hk : (p.1 == k) = true
      · have h1 : (k0 == k) = true := by rw [← hpk0]; exact hk
        simp [counterInc, counterGet, List.find?_cons, hp, hk, h1]
      · have h1 : (k0 == k) = false := by
          rw [← hpk0]
          simpa using hk
        simp only [Bool.not_eq_true] at hk
        simp [counterInc, counterGet, List.find?_cons, hp, hk, h1]
    · simp only [Bool.not_eq_true] at hp
      by_cases hk : (p.1 == k) = true
      · have hpk : p.1 = k := eq_of_beq hk
        have h1 : (k0 == k) = false := by
          rw [← hpk]
          rw [Bool.eq_false_iff] at hp ⊢
          intro hcon
          exact hp (by rw [eq_of_beq hcon]; simp)
        simp [counterInc, counterGet, List.find?_cons, hp, hk, h1]
      · simp only [Bool.not_eq_true] at hk
        have lhs : counterGet (counterInc (p :: rest) k0) k =
            counterGet (counterInc rest k0) k := by
          simp [counterInc, counterGet, List.find?_cons, hp, hk]
        have rhs : counterGet (p :: rest) k = counterGet rest k := by
          simp [counterGet, List.find?_cons, hk]
        rw [lhs, rhs, ih]

/-- `_get_exception_match` ignores the counter and the stored date, so a
day-rollover clear does not affect classification. -/
theorem get_exception_match_clear (em : ExcModel α) (f : FrequencyFilter α)
    (today : String) (r : Record α) :
    FrequencyFilter.get_exception_match em
      (if f.should_clear today = true then f.clear today else f) r =
      FrequencyFilter.get_exception_match em f r := by
  split <;> rfl

/-- One `FrequencyFilter.filter` call, written without the intermediate
counter: the returned count is the pre-call count of the derived key plus
one, the key is the derived key, and the state update is the increment. -/
theorem filter_eq (em : ExcModel α) (f : FrequencyFilter α) (today : String)
    (r : Record α) :
    FrequencyFilter.filter em f today r =
      ((FrequencyFilter.should_log f
          (counterGet (if f.should_clear today = true then f.clear today else f).counter
            (FrequencyFilter.derivedKey em f r) + 1)
          (FrequencyFilter.get_exception_match em f r),
        FrequencyFilter.derivedKey em f r,
        counterGet (if f.should_clear today = true then f.clear today else f).counter
          (FrequencyFilter.derivedKey em f r) + 1),
       { (if f.should_clear today = true then f.clear today else f) with
          counter := counterInc
            (if f.should_clear today = true then f.clear today else f).counter
            (FrequencyFilter.derivedKey em f r) }) := by
  by_cases h : f.should_clear today = true <;>
    simp only [FrequencyFilter.filter, FrequencyFilter.derivedKey, h, if_true, if_false,
      Bool.false_eq_true] <;>
    rw [counterGet_counterInc] <;>
    simp [beq_self_eq_true] <;>
    and_intros <;> rfl

/-- Claim C6.  Day-reset invariant: on a call whose injected UTC date differs
from the stored `last_cleared_date`, the call behaves exactly as if run on
the cleared state (counter emptied, date updated) — the clear happens before
the record is classified, keyed or counted — so the record's count restarts
at 1, the post-call counter holds only this record's key at 1, and an
unclassified record (e.g. one whose key had already reached 1000) is
admitted again. -/
theorem freqFilter_day_reset {α : Type} (em : ExcModel α) (f : FrequencyFilter α)
    (today : String) (r : Record α) (h : today ≠ f.last_cleared_date) :
    FrequencyFilter.filter em f today r =
      FrequencyFilter.filter em (f.clear today) today r ∧
    (FrequencyFilter.filter em f today r).1.2.2 = 1 ∧
    (FrequencyFilter.filter em f today r).2.counter =
      [((FrequencyFilter.filter em f today r).1.2.1, 1)] ∧
    (FrequencyFilter.get_exception_match em f r = none →
      (FrequencyFilter.filter em f today r).1.1 = true) := by
  have hsc : f.should_clear today = true := by
    simp [FrequencyFilter.should_clear, bne_iff_ne, h]
  have hif : (if f.should_clear today = true then f.clear today else f) =
      f.clear today := if_pos hsc
  have hsc2 : (f.clear today).should_clear today = false := by
    simp [FrequencyFilter.should_clear, FrequencyFilter.clear]
  have hif2 : (if (f.clear today).should_clear today = true then
      (f.clear today).clear today else f.clear today) = f.clear today := by
    rw [hsc2]
    simp
  have e1 : FrequencyFilter.filter em f today r =
      ((FrequencyFilter.should_log f 1 (FrequencyFilter.get_exception_match em f r),
        FrequencyFilter.derivedKey em f r, 1),
       { f.clear today with
          counter := [(FrequencyFilter.derivedKey em f r, 1)] }) := by
    rw [filter_eq em f today r, hif]
    rfl
  refine ⟨?_, ?_, ?_, ?_⟩
  · rw [e1, filter_eq em (f.clear today) today r, hif2]
    rfl
  · rw [e1]
  · rw [e1]
  · intro hn
    rw [e1]
    show FrequencyFilter.should_log f 1 (FrequencyFilter.get_exception_match em f r) = true
    rw [hn]
    rfl

/-- Witness for C6: a sampler whose stored date is "d0" and whose counter
already holds `recC2`'s key at 1000 is called on date "d1"; the record's
count restarts at 1 and it is admitted again. -/
theorem freqFilter_day_reset_witness :
    (FrequencyFilter.filter natExcModel ⟨[(kC2, 1000)], "d0", [], 10⟩ "d1"
      recC2).1.2.2 = 1 ∧
    (FrequencyFilter.filter natExcModel ⟨[(kC2, 1000)], "d0", [], 10⟩ "d1"
      recC2).1.1 = true :=
  ⟨(freqFilter_day_reset natExcModel ⟨[(kC2, 1000)], "d0", [], 10⟩ "d1" recC2
      (by decide)).2.1,
   (freqFilter_day_reset natExcModel ⟨[(kC2, 1000)], "d0", [], 10⟩ "d1" recC2
      (by decide)).2.2.2 rfl⟩

/-- Claim C10 (implicit).  With `exception_frequency > 1`, a classified
record whose sampling key has been seen fewer than `exception_frequency`
times since the last reset is rejected (in particular a first sighting,
count 1, is never admitted); an unclassified record's first sighting
(count 1) is always admitted. -/
theorem freqFilter_first_classified_suppressed {α : Type} (em : ExcModel α)
    (f : FrequencyFilter α) (today : String) (r : Record α)
    (hef : 1 < f.exception_frequency) :
    ((FrequencyFilter.get_exception_match em f r).isSome = true →
      (FrequencyFilter.filter em f today r).1.2.2 < f.exception_frequency →
      (FrequencyFilter.filter em f today r).1.1 = false) ∧
    (FrequencyFilter.get_exception_match em f r = none →
      (FrequencyFilter.filter em f today r).1.2.2 = 1 →
      (FrequencyFilter.filter em f today r).1.1 = true) := by
  constructor
  · intro hs hlt
    obtain ⟨c, hc⟩ := Option.isSome_iff_exists.1 hs
    have hlt' : counterGet
        (if f.should_clear today = true then f.clear today else f).counter
        (FrequencyFilter.derivedKey em f r) + 1 < f.exception_frequency := by
      rw [filter_eq em f today r] at hlt
      exact hlt
    rw [filter_eq em f today r]
    show FrequencyFilter.should_log f
        (counterGet (if f.should_clear today = true then f.clear today else f).counter
          (FrequencyFilter.derivedKey em f r) + 1)
        (FrequencyFilter.get_exception_match em f r) = false
    rw [hc]
    have hmod := Nat.mod_eq_of_lt hlt'
    simp [FrequencyFilter.should_log, hmod]
  · intro hn h1
    have h1' : counterGet
        (if f.should_clear today = true then f.clear today else f).counter
        (FrequencyFilter.derivedKey em f r) + 1 = 1 := by
      rw [filter_eq em f today r] at h1
      exact h1
    rw [filter_eq em f today r]
    show FrequencyFilter.should_log f
        (counterGet (if f.should_clear today = true then f.clear today else f).counter
          (FrequencyFilter.derivedKey em f r) + 1)
        (FrequencyFilter.get_exception_match em f r) = true
    rw [hn, h1']
    rfl

/-- Witness for C10: with `fC3` (`exception_frequency = 10`), the first
sighting of a classified record is rejected while the first sighting of an
unclassified record is admitted. -/
theorem freqFilter_first_classified_suppressed_witness :
    (FrequencyFilter.filter natExcModel fC3 "d" (recC3 0)).1.1 = false ∧
    (FrequencyFilter.filter natExcModel fC3 "d" recC2).1.1 = true :=
  ⟨(freqFilter_first_classified_suppressed natExcModel fC3 "d" (recC3 0)
      (by decide)).1 (by decide) (by decide),
   (freqFilter_first_classified_suppressed natExcModel fC3 "d" recC2
      (by decide)).2 rfl (by decide)⟩

theorem runDay_outputs {α : Type} (em : ExcModel α) (today : String)
    (rs : List (Record α)) (f : FrequencyFilter α)
    (hd : f.last_cleared_date = today) :
    ∀ i < rs.length, ∃ r o, rs[i]? = some r ∧
      (FrequencyFilter.runDay em f today rs).1[i]? = some o ∧
      o.2.1 = FrequencyFilter.derivedKey em f r ∧
      o.2.2 = counterGet f.counter (FrequencyFilter.derivedKey em f r) +
        (rs.take (i + 1)).countP (fun q =>
          FrequencyFilter.derivedKey em f q == FrequencyFilter.derivedKey em f r) := by
  induction rs generalizing f with
  | nil => intro i hi; simp at hi
  | cons r0 rs ih =>
    intro i hi
    have hsc : f.should_clear today = false := by
      simp [FrequencyFilter.should_clear, hd]
    have hif : (if f.should_clear today = true then f.clear today else f) = f := by
      rw [hsc]
      simp
    have hstep := filter_eq em f today r0
    rw [hif] at hstep
    have hrun : FrequencyFilter.runDay em f today (r0 :: rs) =
        ((FrequencyFilter.should_log f
            (counterGet f.counter (FrequencyFilter.derivedKey em f r0) + 1)
            (FrequencyFilter.get_exception_match em f r0),
          FrequencyFilter.derivedKey em f r0,
          counterGet f.counter (FrequencyFilter.derivedKey em f r0) + 1) ::
          (FrequencyFilter.runDay em
            { f with counter := counterInc f.counter (FrequencyFilter.derivedKey em f r0) }
            today rs).1,
         (FrequencyFilter.runDay em
            { f with counter := counterInc f.counter (FrequencyFilter.derivedKey em f r0) }
            today rs).2) := by
      simp only [FrequencyFilter.runDay, hstep]
    match i with
    | 0 =>
      have h0 : (FrequencyFilter.runDay em f today (r0 :: rs)).1[0]? =
          some (FrequencyFilter.should_log f
              (counterGet f.counter (FrequencyFilter.derivedKey em f r0) + 1)
              (FrequencyFilter.get_exception_match em f r0),
            FrequencyFilter.derivedKey em f r0,
            counterGet f.counter (FrequencyFilter.derivedKey em f r0) + 1) := by
        rw [hrun]
        simp
      refine ⟨r0, _, by simp, h0, rfl, ?_⟩
      show counterGet f.counter (FrequencyFilter.derivedKey em f r0) + 1 = _
      simp [List.take_succ_cons, List.countP_cons, beq_self_eq_true]
    | Nat.succ j =>
      have hj : j < rs.length := by simpa using hi
      obtain ⟨r, o, hr, ho, hk, hcnt⟩ := ih
        { f with counter := counterInc f.counter (FrequencyFilter.derivedKey em f r0) }
        hd j hj
      have hdk : ∀ q, FrequencyFilter.derivedKey em
          { f with counter := counterInc f.counter (FrequencyFilter.derivedKey em f r0) } q =
          FrequencyFilter.derivedKey em f q := fun _ => rfl
      refine ⟨r, o, by simpa using hr, ?_, ?_, ?_⟩
      · rw [hrun]
        simpa using ho
      · rw [hk, hdk]
      · rw [hcnt]
        simp only [hdk]
        show counterGet (counterInc f.counter (FrequencyFilter.derivedKey em f r0))
            (FrequencyFilter.derivedKey em f r) + _ = _
        rw [counterGet_counterInc]
        rw [List.take_succ_cons, List.countP_cons]
        simp only [beq_iff_eq]
        split_ifs <;> omega

/-- Claim C9.  Record-metadata write-back: starting from a freshly cleared
sampler (empty counter, stored date equal to the injected date), on every
call — admitted or rejected — the record leaves carrying the derived
sampling key in its key metadata and, in its count metadata, the number of
records with that same key processed so far, this call included (1 on first
sighting of a key, increasing by 1 on each subsequent sighting within the
day). -/
theorem freqFilter_metadata_writeback {α : Type} (em : ExcModel α)
    (today : String) (f : FrequencyFilter α) (rs : List (Record α))
    (hc : f.counter = []) (hd : f.last_cleared_date = today)
    (i : Nat) (hi : i < rs.length) :
    ∃ r o, rs[i]? = some r ∧
      (FrequencyFilter.runDay em f today rs).1[i]? = some o ∧
      o.2.1 = FrequencyFilter.derivedKey em f r ∧
      o.2.2 = (rs.take (i + 1)).countP (fun q =>
        FrequencyFilter.derivedKey em f q == FrequencyFilter.derivedKey em f r) := by
  obtain ⟨r, o, h1, h2, h3, h4⟩ := runDay_outputs em today rs f hd i hi
  refine ⟨r, o, h1, h2, h3, ?_⟩
  rw [h4, hc]
  simp [counterGet]

/-- Witness for C9: two identical records on one day leave the second call
with the derived key and count 2. -/
theorem freqFilter_metadata_writeback_witness :
    ∃ r o, ([recC2, recC2] : List (Record Nat))[1]? = some r ∧
      (FrequencyFilter.runDay natExcModel (FrequencyFilter.init [] 10 "d") "d"
        [recC2, recC2]).1[1]? = some o ∧
      o.2.1 = FrequencyFilter.derivedKey natExcModel (FrequencyFilter.init [] 10 "d") r ∧
      o.2.2 = (([recC2, recC2] : List (Record Nat)).take 2).countP (fun q =>
        FrequencyFilter.derivedKey natExcModel (FrequencyFilter.init [] 10 "d") q ==
        FrequencyFilter.derivedKey natExcModel (FrequencyFilter.init [] 10 "d") r) :=
  freqFilter_metadata_writeback natExcModel "d" (FrequencyFilter.init [] 10 "d")
    [recC2, recC2] rfl rfl 1 (by decide)

/-- Counterexample to C7: under `emC7` the record `recC7` carries exception
class 3, which is a subclass of both configured types of `fC7` (so of more
than one, not "exactly one"); the code nevertheless classifies it — it
selects the first configured type, applies the exception-class key, and
applies the exception policy (rejecting this first sighting). -/
theorem freqFilter_classification_counterexample :
    ((fC7.exception_types.filter (fun c => emC7.issub 3 c)).length = 2) ∧
    FrequencyFilter.get_exception_match emC7 fC7 recC7 = some 5 ∧
    (FrequencyFilter.filter emC7 fC7 "d" recC7).1.2.1 =
      FrequencyFilter.get_key emC7 recC7 (some 5) ∧
    (FrequencyFilter.filter emC7 fC7 "d" recC7).1.1 = false := by
  decide

/-- Claim C7, amended.  Classification rule: a record is classified iff it
carries an associated error whose concrete type is a subtype of at least one
configured exception type; the selected exception class is the first match
in configuration order (types before it do not match); with no associated
error or no matching configured type the record is unclassified.  The
record's key metadata is always derived from this classification. -/
theorem freqFilter_classification {α : Type} (em : ExcModel α)
    (f : FrequencyFilter α) (r : Record α) :
    (∀ c, FrequencyFilter.get_exception_match em f r = some c ↔
      ∃ t, r.exc_info = some t ∧ em.issub t c = true ∧
        ∃ l1 l2, f.exception_types = l1 ++ c :: l2 ∧
          ∀ c' ∈ l1, em.issub t c' = false) ∧
    (FrequencyFilter.get_exception_match em f r = none ↔
      r.exc_info = none ∨ ∃ t, r.exc_info = some t ∧
        ∀ c ∈ f.exception_types, em.issub t c = false) ∧
    (∀ today, (FrequencyFilter.filter em f today r).1.2.1 =
      FrequencyFilter.get_key em r (FrequencyFilter.get_exception_match em f r)) := by
  refine ⟨?_, ?_, ?_⟩
  · intro c
    cases hrx : r.exc_info with
    | none => simp [FrequencyFilter.get_exception_match, hrx]
    | some t0 =>
      simp only [FrequencyFilter.get_exception_match, hrx]
      rw [List.find?_eq_some]
      constructor
      · rintro ⟨hp, as, bs, hxs, hall⟩
        exact ⟨t0, rfl, hp, as, bs, hxs, fun c' hc' => by simpa using hall c' hc'⟩
      · rintro ⟨t, ht, hsub, l1, l2, hty, hall⟩
        rw [Option.some.injEq] at ht
        subst ht
        exact ⟨hsub, l1, l2, hty, fun a ha => by simp [hall a ha]⟩
  · cases hrx : r.exc_info with
    | none => simp [FrequencyFilter.get_exception_match, hrx]
    | some t0 =>
      simp only [FrequencyFilter.get_exception_match, hrx]
      rw [List.find?_eq_none]
      constructor
      · intro h
        exact Or.inr ⟨t0, rfl, fun c hc => by simpa using h c hc⟩
      · rintro (h | ⟨t, ht, hall⟩)
        · simp at h
        · rw [Option.some.injEq] at ht
          subst ht
          intro c hc
          simp [hall c hc]
  · intro today
    rw [filter_eq em f today r]
    rfl

set_option maxRecDepth 8000 in
/-- Claim C5.  Per-process rate gate: the first record bearing a given
process identifier is evaluated against a freshly created sliding window
with the gate's `period` and `limit` (stored for that identifier), later
records against the stored window; in each case the returned decision is
exactly the window's `add(record.created)`.  Concretely, with
`period=10, limit=2`, 100 records alternating between two process
identifiers with timestamps `t / 2` yield 20 total admissions, 10 per
process. -/
theorem processTimeFilter_rate_gate {α : Type} (f : ProcessTimeFilter)
    (r : Record α) :
    (procLookup f.processes r.process = none →
      ProcessTimeFilter.filter f r =
        ((TimeWindow.init f.period f.limit).add r.created).map
          (fun p => (p.1, { f with
            processes := procUpdate f.processes r.process p.2 }))) ∧
    (∀ tw, procLookup f.processes r.process = some tw →
      ProcessTimeFilter.filter f r =
        (tw.add r.created).map
          (fun p => (p.1, { f with
            processes := procUpdate f.processes r.process p.2 }))) ∧
    (((ProcessTimeFilter.init 10 2).run recsC5).map
        (fun p => (p.1.countP (fun b => b),
          (recsC5.zip p.1).countP (fun q => q.1.process == "0" && q.2),
          (recsC5.zip p.1).countP (fun q => q.1.process == "1" && q.2))) =
      some (20, 10, 10)) := by
  refine ⟨?_, ?_, by decide⟩
  · intro h
    unfold ProcessTimeFilter.filter
    rw [h]
    show (match (TimeWindow.init f.period f.limit).add r.created with
      | none => none
      | some (b, tw') =>
        some (b, { f with processes := procUpdate f.processes r.process tw' })) = _
    cases hadd : (TimeWindow.init f.period f.limit).add r.created with
    | none => rfl
    | some p =>
      obtain ⟨b, tw'⟩ := p
      rfl
  · intro tw h
    unfold ProcessTimeFilter.filter
    rw [h]
    show (match tw.add r.created with
      | none => none
      | some (b, tw') =>
        some (b, { f with processes := procUpdate f.processes r.process tw' })) = _
    cases hadd : tw.add r.created with
    | none => rfl
    | some p =>
      obtain ⟨b, tw'⟩ := p
      rfl

/-- Witness for C5: the first record of the scenario creates the window for
process "0" and is admitted. -/
theorem processTimeFilter_rate_gate_witness :
    ProcessTimeFilter.filter (ProcessTimeFilter.init 10 2) (recC5 0) =
      ((TimeWindow.init 10 2).add 0).map
        (fun p => (p.1, { ProcessTimeFilter.init 10 2 with
          processes := procUpdate [] "0" p.2 })) :=
  (processTimeFilter_rate_gate (ProcessTimeFilter.init 10 2) (recC5 0)).1 rfl

theorem filterList_true_iff {ρ σ : Type} (r : ρ) (cs : List (ChildFilter ρ σ)) :
    (AndFilter.filterList cs r).1 = true ↔
      ∀ b ∈ childResults cs r, b = true := by
  induction cs with
  | nil => simp [AndFilter.filterList, childResults]
  | cons c cs ih =>
    simp only [AndFilter.filterList, childResults, List.map_cons]
    by_cases hb : (c.filterFn c.state r).1 = true
    · rw [if_pos hb]
      simp only [List.mem_cons, forall_eq_or_imp, hb, true_and]
      rw [ih]
      simp [childResults]
    · rw [if_neg hb]
      simp only [Bool.not_eq_true] at hb
      simp [hb]

theorem filterList_skip {ρ σ : Type} (r : ρ) (cs : List (ChildFilter ρ σ)) :
    ∀ i j : Nat, (childResults cs r)[i]? = some false →
      (∀ k : Nat, k < i → (childResults cs r)[k]? = some true) → i < j →
      ((AndFilter.filterList cs r).2)[j]? = cs[j]? := by
  induction cs with
  | nil =>
    intro i j h _ _
    simp [childResults] at h
  | cons c cs ih =>
    intro i j hfalse hpre hij
    by_cases hb : (c.filterFn c.state r).1 = true
    · match i, j with
      | 0, _ =>
        rw [childResults, List.map_cons, List.getElem?_cons_zero] at hfalse
        rw [hb] at hfalse
        simp at hfalse
      | i' + 1, 0 => omega
      | i' + 1, j' + 1 =>
        have hres : (AndFilter.filterList (c :: cs) r).2 =
            { c with state := (c.filterFn c.state r).2 } ::
              (AndFilter.filterList cs r).2 := by
          simp only [AndFilter.filterList]
          rw [if_pos hb]
        rw [hres, List.getElem?_cons_succ, List.getElem?_cons_succ]
        refine ih i' j' ?_ ?_ (by omega)
        · rw [childResults, List.map_cons, List.getElem?_cons_succ] at hfalse
          exact hfalse
        · intro k hk
          have := hpre (k + 1) (by omega)
          rw [childResults, List.map_cons, List.getElem?_cons_succ] at this
          exact this
    · match j with
      | 0 => omega
      | j' + 1 =>
        have hres : (AndFilter.filterList (c :: cs) r).2 =
            { c with state := (c.filterFn c.state r).2 } :: cs := by
          simp only [AndFilter.filterList]
          rw [if_neg hb]
        rw [hres, List.getElem?_cons_succ, List.getElem?_cons_succ]

/-- Claim C4.  Composite (AND) filter semantics: construction keeps the
children in ascending lexicographic order of their construction names (the
kept list is the name-sorted permutation of the input mapping); evaluation
returns true iff every child returned true; and evaluation stops at the
first child returning false — every child after it is not invoked and its
state (hence any side effect it would have produced) is unchanged. -/
theorem andFilter_semantics {ρ σ : Type} (kwargs : List (String × ChildFilter ρ σ))
    (cs : List (ChildFilter ρ σ)) (r : ρ) :
    (∃ l : List (String × ChildFilter ρ σ), l.Perm kwargs ∧
      List.Sorted (· ≤ ·) (l.map Prod.fst) ∧
      (AndFilter.init kwargs).filters = l.map Prod.snd) ∧
    ((AndFilter.filter ⟨cs⟩ r).1 = true ↔
      ∀ b ∈ childResults cs r, b = true) ∧
    (∀ i j : Nat, (childResults cs r)[i]? = some false →
      (∀ k : Nat, k < i → (childResults cs r)[k]? = some true) → i < j →
      ((AndFilter.filter ⟨cs⟩ r).2.filters)[j]? = cs[j]?) := by
  refine ⟨?_, filterList_true_iff r cs, fun i j h1 h2 h3 => filterList_skip r cs i j h1 h2 h3⟩
  refine ⟨@List.insertionSort (String × ChildFilter ρ σ) (fun a b => a.1 ≤ b.1)
    (fun a b => inferInstanceAs (Decidable (a.1 ≤ b.1))) kwargs,
    @List.perm_insertionSort (String × ChildFilter ρ σ) (fun a b => a.1 ≤ b.1)
      (fun a b => inferInstanceAs (Decidable (a.1 ≤ b.1))) kwargs, ?_, rfl⟩
  haveI htot : IsTotal (String × ChildFilter ρ σ) (fun a b => a.1 ≤ b.1) :=
    ⟨fun a b => le_total a.1 b.1⟩
  haveI htr : IsTrans (String × ChildFilter ρ σ) (fun a b => a.1 ≤ b.1) :=
    ⟨fun _ _ _ h1 h2 => le_trans h1 h2⟩
  have hs := @List.sorted_insertionSort (String × ChildFilter ρ σ)
    (fun a b => a.1 ≤ b.1) (fun a b => inferInstanceAs (Decidable (a.1 ≤ b.1)))
    htot htr kwargs
  exact List.Pairwise.map Prod.fst (fun a b hab => hab) hs

/-- Witness for C4: with children `[cA, cB, cA]` (results true, false, true),
evaluation short-circuits at the second child, so the third child's entry is
returned unchanged. -/
theorem andFilter_semantics_witness :
    ((AndFilter.filter ⟨[cA, cB, cA]⟩ (0 : Nat)).2.filters)[2]? =
      ([cA, cB, cA] : List (ChildFilter Nat Nat))[2]? :=
  (andFilter_semantics [("a", cA), ("b", cB)] [cA, cB, cA] 0).2.2 1 2 rfl
    (fun k hk => by
      have hk0 : k = 0 := by omega
      subst hk0
      rfl)
    (by omega)

end Lumberjill
